import Mathlib

/-!
Shallow embedding of the with-items iteration engine of the mistral
repository:

* `src/mistral/workflow/with_items.py` — `get_output`, `calc_input`,
  `validate_input`, `_get_output_key`, `is_iteration_incomplete`;
* `src/mistral/executors/executor_server.py` — `ExecutorServer.run_action`.

Python values are modelled by the inductive type `Value`; Python dicts by
association lists with first-occurrence lookup (a real dict never holds a
duplicate key, so theorems that need it assume `Nodup` on the keys).
Fallible code returns `Except PyErr`.  `get_output` is embedded twice: a
pure version computing the returned dict as a deep value, and a store/heap
version (`get_output_st`) that makes object identity of Python lists and
dicts explicit, so that the shallow-copy-then-mutate behaviour of the
source is visible.
-/

/-- Embedding of the Python values handled by this code. -/
inductive Value where
  | vnone : Value
  | vbool (b : Bool) : Value
  | vint (n : Int) : Value
  | vstr (s : String) : Value
  | vlist (xs : List Value) : Value
  | vdict (kvs : List (String × Value)) : Value
  deriving Repr

mutual

/-- Decidable equality on `Value` (the nested lists block `deriving`). -/
def Value.decEq : (a b : Value) → Decidable (a = b)
  | Value.vnone, Value.vnone => isTrue rfl
  | Value.vbool a, Value.vbool b =>
    if h : a = b then isTrue (by rw [h]) else
      isFalse (fun heq => h (by injection heq))
  | Value.vint a, Value.vint b =>
    if h : a = b then isTrue (by rw [h]) else
      isFalse (fun heq => h (by injection heq))
  | Value.vstr a, Value.vstr b =>
    if h : a = b then isTrue (by rw [h]) else
      isFalse (fun heq => h (by injection heq))
  | Value.vlist xs, Value.vlist ys =>
    match Value.decEqList xs ys with
    | isTrue h => isTrue (by rw [h])
    | isFalse h => isFalse (fun heq => h (by injection heq))
  | Value.vdict xs, Value.vdict ys =>
    match Value.decEqKvs xs ys with
    | isTrue h => isTrue (by rw [h])
    | isFalse h => isFalse (fun heq => h (by injection heq))
  | Value.vnone, Value.vbool _ => isFalse nofun
  | Value.vnone, Value.vint _ => isFalse nofun
  | Value.vnone, Value.vstr _ => isFalse nofun
  | Value.vnone, Value.vlist _ => isFalse nofun
  | Value.vnone, Value.vdict _ => isFalse nofun
  | Value.vbool _, Value.vnone => isFalse nofun
  | Value.vbool _, Value.vint _ => isFalse nofun
  | Value.vbool _, Value.vstr _ => isFalse nofun
  | Value.vbool _, Value.vlist _ => isFalse nofun
  | Value.vbool _, Value.vdict _ => isFalse nofun
  | Value.vint _, Value.vnone => isFalse nofun
  | Value.vint _, Value.vbool _ => isFalse nofun
  | Value.vint _, Value.vstr _ => isFalse nofun
  | Value.vint _, Value.vlist _ => isFalse nofun
  | Value.vint _, Value.vdict _ => isFalse nofun
  | Value.vstr _, Value.vnone => isFalse nofun
  | Value.vstr _, Value.vbool _ => isFalse nofun
  | Value.vstr _, Value.vint _ => isFalse nofun
  | Value.vstr _, Value.vlist _ => isFalse nofun
  | Value.vstr _, Value.vdict _ => isFalse nofun
  | Value.vlist _, Value.vnone => isFalse nofun
  | Value.vlist _, Value.vbool _ => isFalse nofun
  | Value.vlist _, Value.vint _ => isFalse nofun
  | Value.vlist _, Value.vstr _ => isFalse nofun
  | Value.vlist _, Value.vdict _ => isFalse nofun
  | Value.vdict _, Value.vnone => isFalse nofun
  | Value.vdict _, Value.vbool _ => isFalse nofun
  | Value.vdict _, Value.vint _ => isFalse nofun
  | Value.vdict _, Value.vstr _ => isFalse nofun
  | Value.vdict _, Value.vlist _ => isFalse nofun

/-- Decidable equality on lists of values. -/
def Value.decEqList : (xs ys : List Value) → Decidable (xs = ys)
  | [], [] => isTrue rfl
  | [], _ :: _ => isFalse nofun
  | _ :: _, [] => isFalse nofun
  | x :: xs, y :: ys =>
    match Value.decEq x y with
    | isTrue hx =>
      match Value.decEqList xs ys with
      | isTrue ht => isTrue (by rw [hx, ht])
      | isFalse ht => isFalse (fun heq => ht (by injection heq))
    | isFalse hx => isFalse (fun heq => hx (by injection heq))

/-- Decidable equality on dict entry lists. -/
def Value.decEqKvs : (xs ys : List (String × Value)) → Decidable (xs = ys)
  | [], [] => isTrue rfl
  | [], _ :: _ => isFalse nofun
  | _ :: _, [] => isFalse nofun
  | (k1, v1) :: xs, (k2, v2) :: ys =>
    if hk : k1 = k2 then
      match Value.decEq v1 v2 with
      | isTrue hv =>
        match Value.decEqKvs xs ys with
        | isTrue ht => isTrue (by rw [hk, hv, ht])
        | isFalse ht => isFalse (fun heq => ht (by injection heq))
      | isFalse hv => isFalse (fun heq => by
          injection heq with h1 h2
          injection h1 with hk1 hv1
          exact hv hv1)
    else isFalse (fun heq => by
      injection heq with h1 h2
      injection h1 with hk1 hv1
      exact hk hk1)

end

instance : DecidableEq Value := Value.decEq

/-- Python truthiness of a `Value` (`bool(v)`). -/
def truthy : Value → Bool
  | Value.vnone => false
  | Value.vbool b => b
  | Value.vint n => n != 0
  | Value.vstr s => s != ""
  | Value.vlist xs => !xs.isEmpty
  | Value.vdict kvs => !kvs.isEmpty

/-- Python `x or y`: `x` when truthy, else `y`. -/
def pyOr (x y : Value) : Value := if truthy x then x else y

/-- Dict lookup `d[k]` / `d.get(k)` on an association list: first occurrence. -/
def aget? {α : Type} (kvs : List (String × α)) (k : String) : Option α :=
  match kvs with
  | [] => Option.none
  | (k', v) :: rest => if k' = k then some v else aget? rest k

/-- Dict assignment `d[k] = v`: replace the first binding of `k` in place,
or append a new binding at the end (Python dicts keep insertion order). -/
def aset {α : Type} (kvs : List (String × α)) (k : String) (v : α) :
    List (String × α) :=
  match kvs with
  | [] => [(k, v)]
  | (k', v') :: rest => if k' = k then (k, v) :: rest else (k', v') :: aset rest k v

/-- Python `d.get(k)`: the stored value, or `None` when absent. -/
def dgetN (kvs : List (String × Value)) (k : String) : Value :=
  (aget? kvs k).getD Value.vnone

/-- View a `Value` as a dict's entry list (`{}` for anything else). -/
def asDict : Value → List (String × Value)
  | Value.vdict kvs => kvs
  | _ => []

/-- View a `Value` as a list's elements (`[]` for anything else). -/
def asList : Value → List Value
  | Value.vlist xs => xs
  | _ => []

/-- `len(v)` for the sized Python values; `Option.none` where `len` raises. -/
def pyLen? : Value → Option Nat
  | Value.vlist xs => some xs.length
  | Value.vstr s => some s.length
  | Value.vdict kvs => some kvs.length
  | _ => Option.none

/-- The Python exceptions this code can raise. -/
inductive PyErr where
  | inputException (msg : String) : PyErr
  | indexError : PyErr
  | keyError : PyErr
  | typeError : PyErr
  | attributeError : PyErr
  deriving Repr, DecidableEq

/-- Modelled from the spec: publish-clause expressions.  `mistral.expressions`
is not under `src/`; the spec treats evaluation as an opaque
`evaluate(expression_spec, context) -> value` and its examples use literal
values and `$.field` projections of the iteration data, so an expression is
either a literal or a field path. -/
inductive PExpr where
  | lit (v : Value) : PExpr
  | path (field : String) : PExpr
  deriving Repr, DecidableEq

/-- Modelled from the spec: `expressions.evaluate_recursively` applied to a
publish clause evaluates every entry of the clause against the context
mapping (a `$.field` path selects that field of the context, `None` when
absent). -/
def evaluate_recursively (publish : List (String × PExpr))
    (ctx : List (String × Value)) : List (String × Value) :=
  publish.map (fun kv =>
    (kv.1, match kv.2 with
           | PExpr.lit v => v
           | PExpr.path f => dgetN ctx f))

/-- The slice of a task spec this code reads: `get_publish()` and
`get_with_items()`, both dicts ( `[]` models an absent / empty clause,
which are equally falsy in the source's `if task_spec.get_publish()` ). -/
structure TaskSpec where
  publish : List (String × PExpr)
  with_items : List (String × PExpr)
  deriving Repr, DecidableEq

/-- The slice of a task execution record this code reads: `task_db.name`,
`task_db.input` and `task_db.output`.  The output association list `[]`
covers both `None` and `{}` — the source normalises falsy outputs with
`if not task_db.output: task_db.output = {}`. -/
structure TaskDb where
  name : String
  input : List (String × Value)
  output : List (String × Value)
  deriving Repr, DecidableEq

/-- An iteration result: `raw_result.data` and `raw_result.error`
(`vnone` when absent). -/
structure RawResult where
  data : Value
  error : Value
  deriving Repr, DecidableEq

/-- `_get_output_key(task_spec)`:
`task_spec.get_publish().keys()[0] if task_spec.get_publish() else None`. -/
def _get_output_key (task_spec : TaskSpec) : Option String :=
  match task_spec.publish with
  | [] => Option.none
  | (k, _) :: _ => some k

/-- `get_output(task_db, task_spec, raw_result)` — the returned dict as a
deep value.  The source shallow-copies `task_db.output`, then either

* (publish key `out_key`) appends `output.get(out_key) or e_data` to the
  list under `out_key` (creating `[...]` when the key is absent) and
  rebinds `task_output['task']` to the fresh dict
  `{t_name: {out_key: task_output[out_key]}}`, or
* (no publish) appends `None or e_data` to `task_output['task'][t_name]`,
  creating `{'task': {t_name: [None or e_data]}}` when `'task'` is absent.

`Except.error` marks the places where the Python would raise
(`.append` on a non-list → AttributeError, subscripting a non-dict →
TypeError, a missing task name → KeyError). -/
def get_output (task_db : TaskDb) (task_spec : TaskSpec)
    (raw_result : RawResult) : Except PyErr (List (String × Value)) :=
  let t_name := task_db.name
  let e_data := raw_result.error
  let output := evaluate_recursively task_spec.publish
    (asDict (pyOr raw_result.data (Value.vdict [])))
  let task_output := task_db.output
  match _get_output_key task_spec with
  | some out_key =>
    match aget? task_output out_key with
    | some (Value.vlist xs) =>
      let new_seq := xs ++ [pyOr (dgetN output out_key) e_data]
      let t1 := aset task_output out_key (Value.vlist new_seq)
      Except.ok (aset t1 "task"
        (Value.vdict [(t_name, Value.vdict [(out_key, Value.vlist new_seq)])]))
    | some _ => Except.error PyErr.attributeError
    | Option.none =>
      let new_seq := [pyOr (dgetN output out_key) e_data]
      let t1 := aset task_output out_key (Value.vlist new_seq)
      Except.ok (aset t1 "task"
        (Value.vdict [(t_name, Value.vdict [(out_key, Value.vlist new_seq)])]))
  | Option.none =>
    match aget? task_output "task" with
    | Option.none =>
      Except.ok (aset task_output "task"
        (Value.vdict [(t_name, Value.vlist [pyOr Value.vnone e_data])]))
    | some (Value.vdict tm) =>
      match aget? tm t_name with
      | some (Value.vlist xs) =>
        Except.ok (aset task_output "task"
          (Value.vdict (aset tm t_name
            (Value.vlist (xs ++ [pyOr Value.vnone e_data])))))
      | some _ => Except.error PyErr.attributeError
      | Option.none => Except.error PyErr.keyError
    | some _ => Except.error PyErr.typeError

/-- Inner loop of `calc_input`:
`for index, item in enumerate(value)` starting at `index`, doing
`acc.append({key: item})` when `index >= len(acc)` and
`acc[index].update({key: item})` otherwise. -/
def calc_loop (key : String) : List Value → Nat →
    List (List (String × Value)) → List (List (String × Value))
  | [], _, acc => acc
  | item :: rest, index, acc =>
    let acc' :=
      if acc.length ≤ index then acc ++ [[(key, item)]]
      else acc.set index (aset (acc.getD index []) key item)
    calc_loop key rest (index + 1) acc'

/-- `validate_input(with_items_input)`: raise `InputException` when some
value is not a list, then read `len(values[0])` (IndexError on an empty
mapping) and raise `InputException` when the lengths differ. -/
def validate_input (with_items_input : List (String × Value)) :
    Except PyErr Unit :=
  let values := with_items_input.map Prod.snd
  if !(values.all fun v => match v with | Value.vlist _ => true | _ => false)
  then
    Except.error (PyErr.inputException
      "Wrong input format. List type is expected for each value.")
  else
    match values with
    | [] => Except.error PyErr.indexError
    | v0 :: _ =>
      let required_len := (asList v0).length
      if values.all (fun v => (asList v).length == required_len) then
        Except.ok ()
      else
        Except.error (PyErr.inputException
          "Wrong input format. All arrays must have the same length.")

/-- `calc_input(with_items_input)`: validate, then fold the nested
`for key, value in with_items_input.items(): for index, item in
enumerate(value)` loops over an initially empty accumulator. -/
def calc_input (with_items_input : List (String × Value)) :
    Except PyErr (List (List (String × Value))) :=
  match validate_input with_items_input with
  | Except.error e => Except.error e
  | Except.ok _ =>
    Except.ok (with_items_input.foldl
      (fun acc kv => calc_loop kv.1 (asList kv.2) 0 acc) [])

/-- `is_iteration_incomplete(task_db, task_spec)`:
`iterations_count = len(task_db.input[with_items_spec.keys()[0]])`;
`index` is the length of `task_db.output['task'][task_db.name][output_key]`
when a publish key exists, else of `task_db.output['task'][task_db.name]`;
returns `index < iterations_count`. -/
def is_iteration_incomplete (task_db : TaskDb) (task_spec : TaskSpec) :
    Except PyErr Bool :=
  match task_spec.with_items with
  | [] => Except.error PyErr.indexError
  | (main_key, _) :: _ =>
    match aget? task_db.input main_key with
    | Option.none => Except.error PyErr.keyError
    | some coll =>
      match pyLen? coll with
      | Option.none => Except.error PyErr.typeError
      | some iterations_count =>
        match aget? task_db.output "task" with
        | Option.none => Except.error PyErr.keyError
        | some (Value.vdict tm) =>
          match aget? tm task_db.name with
          | Option.none => Except.error PyErr.keyError
          | some nval =>
            match _get_output_key task_spec with
            | some output_key =>
              match nval with
              | Value.vdict nm =>
                match aget? nm output_key with
                | Option.none => Except.error PyErr.keyError
                | some sval =>
                  match pyLen? sval with
                  | Option.none => Except.error PyErr.typeError
                  | some index => Except.ok (decide (index < iterations_count))
              | _ => Except.error PyErr.typeError
            | Option.none =>
              match pyLen? nval with
              | Option.none => Except.error PyErr.typeError
              | some index => Except.ok (decide (index < iterations_count))
        | some _ => Except.error PyErr.typeError

/-!
Store-passing embedding of `get_output`.  Python lists and dicts are heap
objects; `copy.copy(task_db.output)` copies only the top-level key→object
binding list, so the list objects (and the dict object under `'task'`)
stay shared between the caller's previous output and the copy, and
`.append(...)` mutates them in place.
-/

/-- A heap object: a Python list of plain values, or a Python dict whose
values are references to other heap objects. -/
inductive HObj where
  | hlist (xs : List Value) : HObj
  | hdict (entries : List (String × Nat)) : HObj
  deriving Repr, DecidableEq

/-- The heap: object `r` lives at index `r`. -/
abbrev Heap := List HObj

/-- `get_output` with explicit object identity.  `prior` is the entry list
of the `task_db.output` dict (every value a reference); the result is the
updated heap together with the entry list of the returned dict (the
shallow copy).  Error cases are the same as in `get_output`. -/
def get_output_st (heap : Heap) (prior : List (String × Nat))
    (t_name : String) (task_spec : TaskSpec) (raw_result : RawResult) :
    Except PyErr (Heap × List (String × Nat)) :=
  let e_data := raw_result.error
  let output := evaluate_recursively task_spec.publish
    (asDict (pyOr raw_result.data (Value.vdict [])))
  let task_output := prior
  match _get_output_key task_spec with
  | some out_key =>
    match aget? task_output out_key with
    | some r =>
      match heap[r]? with
      | some (HObj.hlist xs) =>
        let heap1 := heap.set r
          (HObj.hlist (xs ++ [pyOr (dgetN output out_key) e_data]))
        let rInner := heap1.length
        let heap2 := heap1 ++ [HObj.hdict [(out_key, r)]]
        let rOuter := heap2.length
        let heap3 := heap2 ++ [HObj.hdict [(t_name, rInner)]]
        Except.ok (heap3, aset task_output "task" rOuter)
      | _ => Except.error PyErr.attributeError
    | Option.none =>
      let rNew := heap.length
      let heap1 := heap ++ [HObj.hlist [pyOr (dgetN output out_key) e_data]]
      let t1 := aset task_output out_key rNew
      let rInner := heap1.length
      let heap2 := heap1 ++ [HObj.hdict [(out_key, rNew)]]
      let rOuter := heap2.length
      let heap3 := heap2 ++ [HObj.hdict [(t_name, rInner)]]
      Except.ok (heap3, aset t1 "task" rOuter)
  | Option.none =>
    match aget? task_output "task" with
    | Option.none =>
      let rL := heap.length
      let heap1 := heap ++ [HObj.hlist [pyOr Value.vnone e_data]]
      let rD := heap1.length
      let heap2 := heap1 ++ [HObj.hdict [(t_name, rL)]]
      Except.ok (heap2, aset task_output "task" rD)
    | some rT =>
      match heap[rT]? with
      | some (HObj.hdict tm) =>
        match aget? tm t_name with
        | some rL =>
          match heap[rL]?  with
          | some (HObj.hlist xs) =>
            Except.ok
              (heap.set rL (HObj.hlist (xs ++ [pyOr Value.vnone e_data])),
               task_output)
          | _ => Except.error PyErr.attributeError
        | Option.none => Except.error PyErr.keyError
      | _ => Except.error PyErr.typeError

/-!  Embedding of `ExecutorServer.run_action`. -/

/-- The slice of the RPC request context `run_action` reads:
`rpc_ctx.redelivered`, which may be unset (`None`) or a boolean. -/
structure RpcContext where
  redelivered : Option Bool
  deriving Repr, DecidableEq

/-- Python `x or False` on a possibly-unset boolean attribute. -/
def pyOrBool (x : Option Bool) (y : Bool) : Bool :=
  match x with
  | some b => if b then b else y
  | Option.none => y

/-- An executor server holds the underlying executor; its `run_action`
(of the executor) is modelled as a function of the six dispatch fields,
returning an abstract action result. -/
structure ExecutorServer (ρ : Type) where
  executor : String → String → Value → Value → Bool → Bool → ρ

/-- `ExecutorServer.run_action(self, rpc_ctx, action_ex_id, action_cls_str,
action_cls_attrs, params, safe_rerun)`: computes
`redelivered = rpc_ctx.redelivered or False` and returns
`self.executor.run_action(action_ex_id, action_cls_str, action_cls_attrs,
params, safe_rerun, redelivered)`. -/
def ExecutorServer.run_action {ρ : Type} (self : ExecutorServer ρ)
    (rpc_ctx : RpcContext) (action_ex_id : String) (action_cls_str : String)
    (action_cls_attrs : Value) (params : Value) (safe_rerun : Bool) : ρ :=
  let redelivered := pyOrBool rpc_ctx.redelivered false
  self.executor action_ex_id action_cls_str action_cls_attrs params
    safe_rerun redelivered

/-!  Observers used by the theorems. -/

/-- The mirror sequence `out['task'][name]` of a task-output dict, when it
is a list (the no-publish shape). -/
def mirrorSeq? (name : String) (out : List (String × Value)) :
    Option (List Value) :=
  match aget? out "task" with
  | some (Value.vdict tm) =>
    match aget? tm name with
    | some (Value.vlist xs) => some xs
    | _ => Option.none
  | _ => Option.none

/-- The mirror sequence `out['task'][name][key]` of a task-output dict
(the publish shape). -/
def mirrorSeqAt? (name : String) (key : String)
    (out : List (String × Value)) : Option (List Value) :=
  match aget? out "task" with
  | some (Value.vdict tm) =>
    match aget? tm name with
    | some (Value.vdict nm) =>
      match aget? nm key with
      | some (Value.vlist xs) => some xs
      | _ => Option.none
    | _ => Option.none
  | _ => Option.none

/-- The tracked output sequence of a task-output dict: the primary
sequence under the publish key when one exists, the mirror sequence
`out['task'][name]` otherwise. -/
def trackedSeq? (task_spec : TaskSpec) (name : String)
    (out : List (String × Value)) : Option (List Value) :=
  match _get_output_key task_spec with
  | some k =>
    match aget? out k with
    | some (Value.vlist xs) => some xs
    | _ => Option.none
  | Option.none => mirrorSeq? name out

/-- The primary sequence stored under `k` in a task-output dict, `[]` when
absent (used to phrase the append relation of `get_output`). -/
def priorSeq (prior : List (String × Value)) (k : String) : List Value :=
  match aget? prior k with
  | some (Value.vlist xs) => xs
  | _ => []

/-- The rows `calc_input` builds for a validated mapping whose values are
lists of common length `L`: row `i` binds every variable to element `i` of
its source list (proof-side characterization). -/
def buildRows (ds : List (String × Value)) (L : Nat) :
    List (List (String × Value)) :=
  (List.range L).map (fun i =>
    ds.map (fun kv => (kv.1, (asList kv.2).getD i Value.vnone)))

/-!  Association-list lemmas. -/

theorem aget?_aset_self {α : Type} (kvs : List (String × α)) (k : String)
    (v : α) : aget? (aset kvs k v) k = some v := by
  induction kvs with
  | nil => simp [aget?, aset]
  | cons hd tl ih =>
    obtain ⟨k', v'⟩ := hd
    by_cases h : k' = k
    · subst h
      simp [aget?, aset]
    · simp [aget?, aset, h, ih]

theorem aget?_aset_ne {α : Type} (kvs : List (String × α)) (k k2 : String)
    (v : α) (h : k ≠ k2) : aget? (aset kvs k v) k2 = aget? kvs k2 := by
  induction kvs with
  | nil => simp [aget?, aset, h]
  | cons hd tl ih =>
    obtain ⟨k', v'⟩ := hd
    by_cases hk : k' = k
    · subst hk
      simp [aget?, aset, h]
    · simp only [aset, if_neg hk]
      by_cases hk2 : k' = k2
      · subst hk2
        simp [aget?]
      · simp [aget?, hk2, ih]

theorem aset_fresh {α : Type} (kvs : List (String × α)) (k : String) (v : α)
    (h : ∀ p ∈ kvs, p.1 ≠ k) : aset kvs k v = kvs ++ [(k, v)] := by
  induction kvs with
  | nil => simp [aset]
  | cons hd tl ih =>
    obtain ⟨k', v'⟩ := hd
    have hne : k' ≠ k := h (k', v') (by simp)
    simp only [aset, if_neg hne, List.cons_append, List.cons.injEq, true_and]
    exact ih (fun p hp => h p (by simp [hp]))

/-- Looking a key up in a row built by mapping a function over the values
of a duplicate-free association list. -/
theorem aget?_row (ds : List (String × Value)) (f : Value → Value)
    (k : String) (v : Value) (hnd : (ds.map Prod.fst).Nodup)
    (hmem : (k, v) ∈ ds) :
    aget? (ds.map (fun kv => (kv.1, f kv.2))) k = some (f v) := by
  induction ds with
  | nil => cases hmem
  | cons hd tl ih =>
    obtain ⟨k1, v1⟩ := hd
    simp only [List.map_cons, List.nodup_cons] at hnd
    by_cases h : k1 = k
    · subst h
      rcases List.mem_cons.mp hmem with heq | htl
      · have hv : v = v1 := congrArg Prod.snd heq
        simp [aget?, hv]
      · exact absurd (List.mem_map_of_mem Prod.fst htl) hnd.1
    · simp only [List.map_cons, aget?, if_neg h]
      rcases List.mem_cons.mp hmem with heq | htl
      · exact absurd (congrArg Prod.fst heq).symm h
      · exact ih hnd.2 htl

/-- Claim C9: `ExecutorServer.run_action` returns exactly the underlying
executor's `run_action` applied to the unmodified action execution id,
class reference, class attributes, params and safe_rerun flag, with a
redelivered flag equal to the RPC context's redelivered value when set
and `false` otherwise. -/
theorem run_action_delegates {ρ : Type}
    (f : String → String → Value → Value → Bool → Bool → ρ)
    (rpc_ctx : RpcContext) (action_ex_id action_cls_str : String)
    (action_cls_attrs params : Value) (safe_rerun : Bool) :
    (ExecutorServer.mk f).run_action rpc_ctx action_ex_id action_cls_str
        action_cls_attrs params safe_rerun =
      f action_ex_id action_cls_str action_cls_attrs params safe_rerun
        (rpc_ctx.redelivered.getD false) := by
  cases h : rpc_ctx.redelivered with
  | none => simp [ExecutorServer.run_action, pyOrBool, h]
  | some b => cases b <;> simp [ExecutorServer.run_action, pyOrBool, h]

/-- Claim C6, counterexample: on the empty mapping `validate_input` does
not return normally — `values[0]` raises IndexError (which is not an
`InputException`). -/
theorem validate_input_empty_mapping :
    validate_input [] = Except.error PyErr.indexError := rfl

/-- Claim C6, amended: for every nonempty mapping, `validate_input`
returns normally iff every value is a list and all lists share one common
length, and every failure is an `InputException`; the empty mapping
instead raises IndexError (see the counterexample). -/
theorem validate_input_spec (wi : List (String × Value)) (h : wi ≠ []) :
    (validate_input wi = Except.ok () ↔
      ∃ L, ∀ kv ∈ wi, ∃ xs, kv.2 = Value.vlist xs ∧ xs.length = L) ∧
    (validate_input wi = Except.ok () ∨
      ∃ msg, validate_input wi = Except.error (PyErr.inputException msg)) := by
  obtain ⟨⟨k0, v0⟩, rest, rfl⟩ : ∃ kv rest, wi = kv :: rest := by
    cases wi with
    | nil => exact absurd rfl h
    | cons kv rest => exact ⟨kv, rest, rfl⟩
  have hmem2 : ∀ kv ∈ (k0, v0) :: rest, kv.2 ∈ v0 :: rest.map Prod.snd := by
    intro kv hkv
    have := List.mem_map_of_mem Prod.snd hkv
    simpa using this
  have heval : validate_input ((k0, v0) :: rest) =
      (if (!((v0 :: rest.map Prod.snd).all
            (fun v => match v with | Value.vlist _ => true | _ => false))) = true
       then Except.error (PyErr.inputException
         "Wrong input format. List type is expected for each value.")
       else if ((v0 :: rest.map Prod.snd).all
            (fun v => (asList v).length == (asList v0).length)) = true
       then Except.ok ()
       else Except.error (PyErr.inputException
         "Wrong input format. All arrays must have the same length.")) := rfl
  rw [heval]
  by_cases h1 : ((v0 :: rest.map Prod.snd).all
      (fun v => match v with | Value.vlist _ => true | _ => false)) = true
  · rw [h1]
    simp only [Bool.not_true, Bool.false_eq_true, if_false]
    by_cases h2 : ((v0 :: rest.map Prod.snd).all
        (fun v => (asList v).length == (asList v0).length)) = true
    · rw [h2]
      refine ⟨⟨fun _ => ⟨(asList v0).length, fun kv hkv => ?_⟩, fun _ => by simp⟩,
        Or.inl (by simp)⟩
      have hlist := List.all_eq_true.mp h1 kv.2 (hmem2 kv hkv)
      have hlen := List.all_eq_true.mp h2 kv.2 (hmem2 kv hkv)
      cases hkv2 : kv.2 with
      | vlist xs =>
        refine ⟨xs, rfl, ?_⟩
        rw [hkv2] at hlen
        simpa [asList] using hlen
      | vnone => rw [hkv2] at hlist; simp at hlist
      | vbool b => rw [hkv2] at hlist; simp at hlist
      | vint n => rw [hkv2] at hlist; simp at hlist
      | vstr s => rw [hkv2] at hlist; simp at hlist
      | vdict kvs => rw [hkv2] at hlist; simp at hlist
    · rw [Bool.eq_false_iff.mpr h2]
      simp only [Bool.false_eq_true, if_false]
      refine ⟨⟨fun hbad => Except.noConfusion hbad, ?_⟩, Or.inr ⟨_, rfl⟩⟩
      rintro ⟨L, hL⟩
      exfalso
      apply h2
      refine List.all_eq_true.mpr (fun v hv => ?_)
      obtain ⟨xs0, hx0, hl0⟩ := hL (k0, v0) (by simp)
      have hx0v : v0 = Value.vlist xs0 := hx0
      rcases List.mem_cons.mp hv with rfl | hv2
      · simp
      · obtain ⟨kv, hkv, rfl⟩ := List.mem_map.mp hv2
        obtain ⟨xs, hxs, hlxs⟩ := hL kv (List.mem_cons_of_mem _ hkv)
        rw [hxs, hx0v]
        simp [asList, hlxs, hl0]
  · rw [Bool.eq_false_iff.mpr h1]
    simp only [Bool.not_false, if_true]
    refine ⟨⟨fun hbad => Except.noConfusion hbad, ?_⟩, Or.inr ⟨_, rfl⟩⟩
    rintro ⟨L, hL⟩
    exfalso
    apply h1
    refine List.all_eq_true.mpr (fun v hv => ?_)
    rcases List.mem_cons.mp hv with rfl | hv2
    · obtain ⟨xs0, hx0, -⟩ := hL (k0, v) (by simp)
      have hx0v : v = Value.vlist xs0 := hx0
      rw [hx0v]
    · obtain ⟨kv, hkv, rfl⟩ := List.mem_map.mp hv2
      obtain ⟨xs, hxs, -⟩ := hL kv (List.mem_cons_of_mem _ hkv)
      rw [hxs]

/-- Witness for the amended C6 at a concrete nonempty mapping. -/
theorem validate_input_spec_witness :
    ([("itemX", Value.vlist [Value.vint 1])] : List (String × Value)) ≠ [] ∧
    ((validate_input [("itemX", Value.vlist [Value.vint 1])] = Except.ok () ↔
      ∃ L, ∀ kv ∈ [("itemX", Value.vlist [Value.vint 1])],
        ∃ xs, kv.2 = Value.vlist xs ∧ xs.length = L) ∧
     (validate_input [("itemX", Value.vlist [Value.vint 1])] = Except.ok () ∨
      ∃ msg, validate_input [("itemX", Value.vlist [Value.vint 1])] =
        Except.error (PyErr.inputException msg))) :=
  ⟨by simp, validate_input_spec [("itemX", Value.vlist [Value.vint 1])] (by simp)⟩

/-- Claim C1, counterexample: the projection evaluates to `{result: 0}` —
the designated key is present with the falsy value `0` — yet `get_output`
appends the iteration's error datum `"E"`, not `0`, because the source
uses `output.get(out_key) or e_data`. -/
theorem get_output_falsy_projection_counterexample :
    aget? (evaluate_recursively [("result", PExpr.path "out")]
        (asDict (pyOr (Value.vdict [("out", Value.vint 0)])
          (Value.vdict [])))) "result" = some (Value.vint 0) ∧
    get_output
        (TaskDb.mk "t1" [("i", Value.vlist [Value.vint 1])] [])
        (TaskSpec.mk [("result", PExpr.path "out")] [("i", PExpr.path "arr")])
        (RawResult.mk (Value.vdict [("out", Value.vint 0)]) (Value.vstr "E")) =
      Except.ok [("result", Value.vlist [Value.vstr "E"]),
        ("task", Value.vdict [("t1", Value.vdict [("result",
          Value.vlist [Value.vstr "E"])])])] :=
  ⟨rfl, rfl⟩

/-- Claim C1, amended: with a publish clause, `get_output` appends the
projected value under the designated key when that value is truthy, and
the iteration's error datum otherwise — also when the key is present but
its value is falsy (`0`, `""`, `[]`, …). -/
theorem get_output_publish_append (name : String)
    (inp prior : List (String × Value)) (k : String) (e : PExpr)
    (ps wi : List (String × PExpr)) (res : RawResult) (v : Value)
    (hk : k ≠ "task")
    (hv : v = (aget? (evaluate_recursively ((k, e) :: ps)
        (asDict (pyOr res.data (Value.vdict [])))) k).getD Value.vnone)
    (hp : aget? prior k = Option.none ∨
      ∃ xs, aget? prior k = some (Value.vlist xs)) :
    ∃ out, get_output (TaskDb.mk name inp prior)
        (TaskSpec.mk ((k, e) :: ps) wi) res = Except.ok out ∧
      aget? out k = some (Value.vlist (priorSeq prior k ++
        [if truthy v = true then v else res.error])) := by
  subst hv
  have hw : pyOr (dgetN (evaluate_recursively ((k, e) :: ps)
      (asDict (pyOr res.data (Value.vdict [])))) k) res.error =
      (if truthy ((aget? (evaluate_recursively ((k, e) :: ps)
          (asDict (pyOr res.data (Value.vdict [])))) k).getD Value.vnone) = true
       then (aget? (evaluate_recursively ((k, e) :: ps)
          (asDict (pyOr res.data (Value.vdict [])))) k).getD Value.vnone
       else res.error) := by
    simp [pyOr, dgetN]
  rcases hp with hnone | ⟨xs, hxs⟩
  · have hrun : get_output (TaskDb.mk name inp prior)
        (TaskSpec.mk ((k, e) :: ps) wi) res =
        Except.ok (aset (aset prior k (Value.vlist
            [pyOr (dgetN (evaluate_recursively ((k, e) :: ps)
              (asDict (pyOr res.data (Value.vdict [])))) k) res.error])) "task"
          (Value.vdict [(name, Value.vdict [(k, Value.vlist
            [pyOr (dgetN (evaluate_recursively ((k, e) :: ps)
              (asDict (pyOr res.data (Value.vdict [])))) k) res.error])])])) := by
      simp [get_output, _get_output_key, hnone]
    refine ⟨_, hrun, ?_⟩
    rw [aget?_aset_ne _ "task" k _ (Ne.symm hk), aget?_aset_self, hw]
    simp [priorSeq, hnone]
  · have hrun : get_output (TaskDb.mk name inp prior)
        (TaskSpec.mk ((k, e) :: ps) wi) res =
        Except.ok (aset (aset prior k (Value.vlist
            (xs ++ [pyOr (dgetN (evaluate_recursively ((k, e) :: ps)
              (asDict (pyOr res.data (Value.vdict [])))) k) res.error]))) "task"
          (Value.vdict [(name, Value.vdict [(k, Value.vlist
            (xs ++ [pyOr (dgetN (evaluate_recursively ((k, e) :: ps)
              (asDict (pyOr res.data (Value.vdict [])))) k) res.error]))])])) := by
      simp [get_output, _get_output_key, hxs]
    refine ⟨_, hrun, ?_⟩
    rw [aget?_aset_ne _ "task" k _ (Ne.symm hk), aget?_aset_self, hw]
    simp [priorSeq, hxs]

/-- Witness for the amended C1 at a concrete input: projected value `0`
(falsy) with error datum `"E"`, on an empty prior output. -/
theorem get_output_publish_append_witness :
    ("result" : String) ≠ "task" ∧
    (Value.vint 0 =
      (aget? (evaluate_recursively [("result", PExpr.path "out")]
        (asDict (pyOr (Value.vdict [("out", Value.vint 0)])
          (Value.vdict [])))) "result").getD Value.vnone) ∧
    (aget? ([] : List (String × Value)) "result" = Option.none ∨
      ∃ xs, aget? ([] : List (String × Value)) "result" =
        some (Value.vlist xs)) ∧
    ∃ out, get_output (TaskDb.mk "t1" [("i", Value.vlist [Value.vint 1])] [])
        (TaskSpec.mk [("result", PExpr.path "out")] [("i", PExpr.path "arr")])
        (RawResult.mk (Value.vdict [("out", Value.vint 0)])
          (Value.vstr "E")) = Except.ok out ∧
      aget? out "result" = some (Value.vlist (priorSeq [] "result" ++
        [if truthy (Value.vint 0) = true then Value.vint 0
         else (RawResult.mk (Value.vdict [("out", Value.vint 0)])
           (Value.vstr "E")).error])) :=
  ⟨by decide, rfl, Or.inl rfl,
    get_output_publish_append "t1" [("i", Value.vlist [Value.vint 1])] []
      "result" (PExpr.path "out") [] [("i", PExpr.path "arr")]
      (RawResult.mk (Value.vdict [("out", Value.vint 0)]) (Value.vstr "E"))
      (Value.vint 0) (by decide) rfl (Or.inl rfl)⟩

/-- Claim C8: with a publish clause whose designated key is `k`, the
returned task output stores the same sequence under `k` and under the
mirror path `task[name][k]`, entry for entry. -/
theorem get_output_mirror_eq_primary (name : String)
    (inp prior : List (String × Value)) (k : String) (e : PExpr)
    (ps wi : List (String × PExpr)) (res : RawResult) (hk : k ≠ "task")
    (hp : aget? prior k = Option.none ∨
      ∃ xs, aget? prior k = some (Value.vlist xs)) :
    ∃ out seq, get_output (TaskDb.mk name inp prior)
        (TaskSpec.mk ((k, e) :: ps) wi) res = Except.ok out ∧
      aget? out k = some (Value.vlist seq) ∧
      mirrorSeqAt? name k out = some seq := by
  rcases hp with hnone | ⟨xs, hxs⟩
  · have hrun : get_output (TaskDb.mk name inp prior)
        (TaskSpec.mk ((k, e) :: ps) wi) res =
        Except.ok (aset (aset prior k (Value.vlist
            [pyOr (dgetN (evaluate_recursively ((k, e) :: ps)
              (asDict (pyOr res.data (Value.vdict [])))) k) res.error])) "task"
          (Value.vdict [(name, Value.vdict [(k, Value.vlist
            [pyOr (dgetN (evaluate_recursively ((k, e) :: ps)
              (asDict (pyOr res.data (Value.vdict [])))) k) res.error])])])) := by
      simp [get_output, _get_output_key, hnone]
    refine ⟨_, [pyOr (dgetN (evaluate_recursively ((k, e) :: ps)
        (asDict (pyOr res.data (Value.vdict [])))) k) res.error],
      hrun, ?_, ?_⟩
    · rw [aget?_aset_ne _ "task" k _ (Ne.symm hk), aget?_aset_self]
    · simp [mirrorSeqAt?, aget?_aset_self, aget?]
  · have hrun : get_output (TaskDb.mk name inp prior)
        (TaskSpec.mk ((k, e) :: ps) wi) res =
        Except.ok (aset (aset prior k (Value.vlist
            (xs ++ [pyOr (dgetN (evaluate_recursively ((k, e) :: ps)
              (asDict (pyOr res.data (Value.vdict [])))) k) res.error]))) "task"
          (Value.vdict [(name, Value.vdict [(k, Value.vlist
            (xs ++ [pyOr (dgetN (evaluate_recursively ((k, e) :: ps)
              (asDict (pyOr res.data (Value.vdict [])))) k) res.error]))])])) := by
      simp [get_output, _get_output_key, hxs]
    refine ⟨_, xs ++ [pyOr (dgetN (evaluate_recursively ((k, e) :: ps)
        (asDict (pyOr res.data (Value.vdict [])))) k) res.error],
      hrun, ?_, ?_⟩
    · rw [aget?_aset_ne _ "task" k _ (Ne.symm hk), aget?_aset_self]
    · simp [mirrorSeqAt?, aget?_aset_self, aget?]

/-- Witness for C8 at a concrete input with a nonempty prior sequence. -/
theorem get_output_mirror_eq_primary_witness :
    ("result" : String) ≠ "task" ∧
    (aget? ([("result", Value.vlist [Value.vstr "a"])] : List (String × Value))
        "result" = Option.none ∨
      ∃ xs, aget? ([("result", Value.vlist [Value.vstr "a"])] :
        List (String × Value)) "result" = some (Value.vlist xs)) ∧
    ∃ out seq, get_output
        (TaskDb.mk "t1" [("i", Value.vlist [Value.vint 1, Value.vint 2])]
          [("result", Value.vlist [Value.vstr "a"])])
        (TaskSpec.mk [("result", PExpr.path "out")] [("i", PExpr.path "arr")])
        (RawResult.mk (Value.vdict [("out", Value.vstr "b")]) Value.vnone) =
      Except.ok out ∧
      aget? out "result" = some (Value.vlist seq) ∧
      mirrorSeqAt? "t1" "result" out = some seq :=
  ⟨by decide, Or.inr ⟨[Value.vstr "a"], rfl⟩,
    get_output_mirror_eq_primary "t1"
      [("i", Value.vlist [Value.vint 1, Value.vint 2])]
      [("result", Value.vlist [Value.vstr "a"])] "result" (PExpr.path "out")
      [] [("i", PExpr.path "arr")]
      (RawResult.mk (Value.vdict [("out", Value.vstr "b")]) Value.vnone)
      (by decide) (Or.inr ⟨[Value.vstr "a"], rfl⟩)⟩

/-- Claim C10: in the publish case the returned output binds `'task'` to a
fresh mapping holding only the current task name, which holds only the
designated key; any other task name is absent from it. -/
theorem get_output_task_replaced (name : String)
    (inp prior : List (String × Value)) (k : String) (e : PExpr)
    (ps wi : List (String × PExpr)) (res : RawResult)
    (hp : aget? prior k = Option.none ∨
      ∃ xs, aget? prior k = some (Value.vlist xs)) :
    ∃ out seq, get_output (TaskDb.mk name inp prior)
        (TaskSpec.mk ((k, e) :: ps) wi) res = Except.ok out ∧
      aget? out "task" = some (Value.vdict [(name, Value.vdict [(k,
        Value.vlist seq)])]) ∧
      ∀ name2, name2 ≠ name →
        aget? (asDict (dgetN out "task")) name2 = Option.none := by
  rcases hp with hnone | ⟨xs, hxs⟩
  · have hrun : get_output (TaskDb.mk name inp prior)
        (TaskSpec.mk ((k, e) :: ps) wi) res =
        Except.ok (aset (aset prior k (Value.vlist
            [pyOr (dgetN (evaluate_recursively ((k, e) :: ps)
              (asDict (pyOr res.data (Value.vdict [])))) k) res.error])) "task"
          (Value.vdict [(name, Value.vdict [(k, Value.vlist
            [pyOr (dgetN (evaluate_recursively ((k, e) :: ps)
              (asDict (pyOr res.data (Value.vdict [])))) k) res.error])])])) := by
      simp [get_output, _get_output_key, hnone]
    refine ⟨_, [pyOr (dgetN (evaluate_recursively ((k, e) :: ps)
        (asDict (pyOr res.data (Value.vdict [])))) k) res.error],
      hrun, ?_, ?_⟩
    · exact aget?_aset_self ..
    · intro name2 hname2
      simp [dgetN, aget?_aset_self, asDict, aget?, Ne.symm hname2]
  · have hrun : get_output (TaskDb.mk name inp prior)
        (TaskSpec.mk ((k, e) :: ps) wi) res =
        Except.ok (aset (aset prior k (Value.vlist
            (xs ++ [pyOr (dgetN (evaluate_recursively ((k, e) :: ps)
              (asDict (pyOr res.data (Value.vdict [])))) k) res.error]))) "task"
          (Value.vdict [(name, Value.vdict [(k, Value.vlist
            (xs ++ [pyOr (dgetN (evaluate_recursively ((k, e) :: ps)
              (asDict (pyOr res.data (Value.vdict [])))) k) res.error]))])])) := by
      simp [get_output, _get_output_key, hxs]
    refine ⟨_, xs ++ [pyOr (dgetN (evaluate_recursively ((k, e) :: ps)
        (asDict (pyOr res.data (Value.vdict [])))) k) res.error],
      hrun, ?_, ?_⟩
    · exact aget?_aset_self ..
    · intro name2 hname2
      simp [dgetN, aget?_aset_self, asDict, aget?, Ne.symm hname2]

/-- Witness for C10: a prior output holding another task's bookkeeping
under `'task'`, which is gone from the returned output. -/
theorem get_output_task_replaced_witness :
    (aget? ([("task", Value.vdict [("t0", Value.vlist [Value.vnone])])] :
        List (String × Value)) "result" = Option.none ∨
      ∃ xs, aget? ([("task", Value.vdict [("t0", Value.vlist [Value.vnone])])] :
        List (String × Value)) "result" = some (Value.vlist xs)) ∧
    ∃ out seq, get_output
        (TaskDb.mk "t1" [("i", Value.vlist [Value.vint 1])]
          [("task", Value.vdict [("t0", Value.vlist [Value.vnone])])])
        (TaskSpec.mk [("result", PExpr.path "out")] [("i", PExpr.path "arr")])
        (RawResult.mk (Value.vdict [("out", Value.vstr "b")]) Value.vnone) =
      Except.ok out ∧
      aget? out "task" = some (Value.vdict [("t1", Value.vdict [("result",
        Value.vlist seq)])]) ∧
      ∀ name2, name2 ≠ "t1" →
        aget? (asDict (dgetN out "task")) name2 = Option.none :=
  ⟨Or.inl rfl,
    get_output_task_replaced "t1" [("i", Value.vlist [Value.vint 1])]
      [("task", Value.vdict [("t0", Value.vlist [Value.vnone])])] "result"
      (PExpr.path "out") [] [("i", PExpr.path "arr")]
      (RawResult.mk (Value.vdict [("out", Value.vstr "b")]) Value.vnone)
      (Or.inl rfl)⟩

/-- Inversion of `mirrorSeq?`: a mirror sequence exists exactly when
`'task'` holds a dict that holds a list at the task name. -/
theorem mirrorSeq?_some (name : String) (prior : List (String × Value))
    (xs : List Value) (h : mirrorSeq? name prior = some xs) :
    ∃ tm, aget? prior "task" = some (Value.vdict tm) ∧
      aget? tm name = some (Value.vlist xs) := by
  unfold mirrorSeq? at h
  rcases hT : aget? prior "task" with _ | tv
  · rw [hT] at h
    simp at h
  · rw [hT] at h
    cases tv with
    | vdict tm =>
      have h1 : (match aget? tm name with
          | some (Value.vlist ys) => some ys
          | _ => Option.none) = some xs := h
      rcases hN : aget? tm name with _ | nv
      · rw [hN] at h1
        simp at h1
      · rw [hN] at h1
        cases nv with
        | vlist ys =>
          simp at h1
          exact ⟨tm, rfl, by rw [hN, h1]⟩
        | vnone => simp at h1
        | vbool b => simp at h1
        | vint n => simp at h1
        | vstr s => simp at h1
        | vdict kvs => simp at h1
    | vnone => simp at h
    | vbool b => simp at h
    | vint n => simp at h
    | vstr s => simp at h
    | vlist ys => simp at h

/-- Claim C7: without a publish clause, `get_output` appends the
iteration's error datum (`null` on success) to the mirror sequence
`task[name]`, and adds no key other than `'task'` to the returned output;
in particular, two sequential completions (a success then an error) yield
the mirror sequence `[null, error]`. -/
theorem get_output_no_publish :
    (∀ (name : String) (inp prior : List (String × Value))
       (wi : List (String × PExpr)) (res : RawResult),
      (aget? prior "task" = Option.none ∨
        ∃ xs, mirrorSeq? name prior = some xs) →
      ∃ out, get_output (TaskDb.mk name inp prior) (TaskSpec.mk [] wi) res =
          Except.ok out ∧
        mirrorSeq? name out =
          some ((mirrorSeq? name prior).getD [] ++ [res.error]) ∧
        ∀ k2, k2 ≠ "task" → aget? out k2 = aget? prior k2) ∧
    get_output (TaskDb.mk "t1" [("i", Value.vlist [Value.vint 1, Value.vint 2])] [])
        (TaskSpec.mk [] [("i", PExpr.path "arr")])
        (RawResult.mk (Value.vdict [("out", Value.vstr "a")]) Value.vnone) =
      Except.ok [("task", Value.vdict [("t1", Value.vlist [Value.vnone])])] ∧
    get_output (TaskDb.mk "t1" [("i", Value.vlist [Value.vint 1, Value.vint 2])]
          [("task", Value.vdict [("t1", Value.vlist [Value.vnone])])])
        (TaskSpec.mk [] [("i", PExpr.path "arr")])
        (RawResult.mk Value.vnone (Value.vstr "E")) =
      Except.ok [("task", Value.vdict [("t1",
        Value.vlist [Value.vnone, Value.vstr "E"])])] := by
  refine ⟨?_, rfl, rfl⟩
  intro name inp prior wi res hp
  rcases hp with hnone | ⟨xs, hm⟩
  · have hrun : get_output (TaskDb.mk name inp prior) (TaskSpec.mk [] wi) res =
        Except.ok (aset prior "task"
          (Value.vdict [(name, Value.vlist [pyOr Value.vnone res.error])])) := by
      simp [get_output, _get_output_key, hnone]
    refine ⟨_, hrun, ?_, ?_⟩
    · simp [mirrorSeq?, aget?_aset_self, aget?, hnone, pyOr, truthy]
    · intro k2 h2
      exact aget?_aset_ne prior "task" k2 _ (Ne.symm h2)
  · obtain ⟨tm, hT, hN⟩ := mirrorSeq?_some name prior xs hm
    have hrun : get_output (TaskDb.mk name inp prior) (TaskSpec.mk [] wi) res =
        Except.ok (aset prior "task" (Value.vdict (aset tm name
          (Value.vlist (xs ++ [pyOr Value.vnone res.error]))))) := by
      simp [get_output, _get_output_key, hT, hN]
    refine ⟨_, hrun, ?_, ?_⟩
    · rw [hm]
      simp [mirrorSeq?, aget?_aset_self, pyOr, truthy]
    · intro k2 h2
      exact aget?_aset_ne prior "task" k2 _ (Ne.symm h2)

/-- Witness for C7, applying the general part at the second completion of
the success-then-error scenario. -/
theorem get_output_no_publish_witness :
    (aget? ([("task", Value.vdict [("t1", Value.vlist [Value.vnone])])] :
        List (String × Value)) "task" = Option.none ∨
      ∃ xs, mirrorSeq? "t1"
        [("task", Value.vdict [("t1", Value.vlist [Value.vnone])])] =
        some xs) ∧
    ∃ out, get_output
        (TaskDb.mk "t1" [("i", Value.vlist [Value.vint 1, Value.vint 2])]
          [("task", Value.vdict [("t1", Value.vlist [Value.vnone])])])
        (TaskSpec.mk [] [("i", PExpr.path "arr")])
        (RawResult.mk Value.vnone (Value.vstr "E")) = Except.ok out ∧
      mirrorSeq? "t1" out = some ((mirrorSeq? "t1"
        [("task", Value.vdict [("t1", Value.vlist [Value.vnone])])]).getD []
        ++ [(RawResult.mk Value.vnone (Value.vstr "E")).error]) ∧
      ∀ k2, k2 ≠ "task" → aget? out k2 =
        aget? [("task", Value.vdict [("t1", Value.vlist [Value.vnone])])] k2 :=
  ⟨Or.inr ⟨[Value.vnone], rfl⟩,
    get_output_no_publish.1 "t1"
      [("i", Value.vlist [Value.vint 1, Value.vint 2])]
      [("task", Value.vdict [("t1", Value.vlist [Value.vnone])])]
      [("i", PExpr.path "arr")] (RawResult.mk Value.vnone (Value.vstr "E"))
      (Or.inr ⟨[Value.vnone], rfl⟩)⟩

/-- Claim C5, counterexample: the collection length is `L = 2` and the
primary sequence under the publish key already holds `2` entries, so by
the claim the task is complete (`count == L` → `false`); the code instead
reads the mirror sequence `task['t1']['result']` (length 1) and returns
`true`. -/
theorem is_iteration_incomplete_counterexample :
    aget? ([("result", Value.vlist [Value.vstr "a", Value.vstr "b"]),
        ("task", Value.vdict [("t1", Value.vdict [("result",
          Value.vlist [Value.vstr "a"])])])] : List (String × Value))
      "result" = some (Value.vlist [Value.vstr "a", Value.vstr "b"]) ∧
    aget? ([("i", Value.vlist [Value.vint 1, Value.vint 2])] :
        List (String × Value)) "i" =
      some (Value.vlist [Value.vint 1, Value.vint 2]) ∧
    is_iteration_incomplete
      (TaskDb.mk "t1" [("i", Value.vlist [Value.vint 1, Value.vint 2])]
        [("result", Value.vlist [Value.vstr "a", Value.vstr "b"]),
         ("task", Value.vdict [("t1", Value.vdict [("result",
           Value.vlist [Value.vstr "a"])])])])
      (TaskSpec.mk [("result", PExpr.path "out")] [("i", PExpr.path "arr")]) =
      Except.ok true :=
  ⟨rfl, rfl, rfl⟩

/-- Claim C5, amended: `is_iteration_incomplete` returns `count < L` where
`L` is the length of the first with-items source collection on the task's
input and `count` is the length of the mirror sequence
`task[name][key]` when a publish key exists (not of the primary sequence),
or of `task[name]` otherwise. -/
theorem is_iteration_incomplete_spec :
    (∀ (name : String) (inp prior : List (String × Value)) (mk k : String)
       (we e : PExpr) (wrest ps : List (String × PExpr)) (coll : List Value)
       (tm nm : List (String × Value)) (mirror : List Value),
      aget? inp mk = some (Value.vlist coll) →
      aget? prior "task" = some (Value.vdict tm) →
      aget? tm name = some (Value.vdict nm) →
      aget? nm k = some (Value.vlist mirror) →
      is_iteration_incomplete (TaskDb.mk name inp prior)
          (TaskSpec.mk ((k, e) :: ps) ((mk, we) :: wrest)) =
        Except.ok (decide (mirror.length < coll.length))) ∧
    (∀ (name : String) (inp prior : List (String × Value)) (mk : String)
       (we : PExpr) (wrest : List (String × PExpr)) (coll : List Value)
       (tm : List (String × Value)) (mirror : List Value),
      aget? inp mk = some (Value.vlist coll) →
      aget? prior "task" = some (Value.vdict tm) →
      aget? tm name = some (Value.vlist mirror) →
      is_iteration_incomplete (TaskDb.mk name inp prior)
          (TaskSpec.mk [] ((mk, we) :: wrest)) =
        Except.ok (decide (mirror.length < coll.length))) := by
  constructor
  · intro name inp prior mk k we e wrest ps coll tm nm mirror h1 h2 h3 h4
    simp [is_iteration_incomplete, _get_output_key, h1, h2, h3, h4, pyLen?]
  · intro name inp prior mk we wrest coll tm mirror h1 h2 h3
    simp [is_iteration_incomplete, _get_output_key, h1, h2, h3, pyLen?]

/-- Witness for the amended C5, applying both the publish and the
no-publish part at concrete inputs. -/
theorem is_iteration_incomplete_spec_witness :
    is_iteration_incomplete
      (TaskDb.mk "t1" [("i", Value.vlist [Value.vint 1, Value.vint 2])]
        [("result", Value.vlist [Value.vstr "a", Value.vstr "b"]),
         ("task", Value.vdict [("t1", Value.vdict [("result",
           Value.vlist [Value.vstr "a"])])])])
      (TaskSpec.mk [("result", PExpr.path "out")] [("i", PExpr.path "arr")]) =
      Except.ok (decide (([Value.vstr "a"] : List Value).length <
        ([Value.vint 1, Value.vint 2] : List Value).length)) ∧
    is_iteration_incomplete
      (TaskDb.mk "t1" [("i", Value.vlist [Value.vint 1, Value.vint 2])]
        [("task", Value.vdict [("t1", Value.vlist [Value.vnone, Value.vnone])])])
      (TaskSpec.mk [] [("i", PExpr.path "arr")]) =
      Except.ok (decide (([Value.vnone, Value.vnone] : List Value).length <
        ([Value.vint 1, Value.vint 2] : List Value).length)) :=
  ⟨is_iteration_incomplete_spec.1 "t1" _ _ "i" "result" (PExpr.path "arr")
      (PExpr.path "out") [] [] [Value.vint 1, Value.vint 2]
      [("t1", Value.vdict [("result", Value.vlist [Value.vstr "a"])])]
      [("result", Value.vlist [Value.vstr "a"])] [Value.vstr "a"]
      rfl rfl rfl rfl,
   is_iteration_incomplete_spec.2 "t1" _ _ "i" (PExpr.path "arr") []
      [Value.vint 1, Value.vint 2]
      [("t1", Value.vlist [Value.vnone, Value.vnone])]
      [Value.vnone, Value.vnone] rfl rfl rfl⟩

/-- Claim C2, counterexample: `copy.copy` is shallow, so the list object
shared with the caller's previous output is appended in place — after the
call the heap cell referenced by the input's `'result'` entry holds two
elements where it held one. -/
theorem get_output_st_counterexample :
    (get_output_st [HObj.hlist [Value.vstr "a"]] [("result", 0)] "t1"
        (TaskSpec.mk [("result", PExpr.path "out")] [("i", PExpr.path "arr")])
        (RawResult.mk (Value.vdict [("out", Value.vstr "b")])
          Value.vnone)).map (fun p => p.1[0]?) =
      Except.ok (some (HObj.hlist [Value.vstr "a", Value.vstr "b"])) ∧
    ([HObj.hlist [Value.vstr "a"]] : Heap)[0]? =
      some (HObj.hlist [Value.vstr "a"]) :=
  ⟨rfl, rfl⟩

/-- Claim C2, amended: when a publish key exists and the previous output
already binds it, `get_output` mutates the caller's previous TaskOutput:
the referenced list object is appended in place, and the returned output
shares that same object reference rather than holding a private copy. -/
theorem get_output_st_mutates (heap : Heap) (prior : List (String × Nat))
    (name k : String) (e : PExpr) (ps wi : List (String × PExpr))
    (res : RawResult) (r : Nat) (xs : List Value) (hk : k ≠ "task")
    (h1 : aget? prior k = some r)
    (h2 : heap[r]? = some (HObj.hlist xs)) :
    ∃ hp out v, get_output_st heap prior name
        (TaskSpec.mk ((k, e) :: ps) wi) res = Except.ok (hp, out) ∧
      hp[r]? = some (HObj.hlist (xs ++ [v])) ∧
      aget? out k = some r := by
  have hlt : r < heap.length := by
    by_contra hge
    rw [List.getElem?_eq_none (by omega)] at h2
    cases h2
  have hrun : get_output_st heap prior name
      (TaskSpec.mk ((k, e) :: ps) wi) res =
      Except.ok (heap.set r (HObj.hlist (xs ++
          [pyOr (dgetN (evaluate_recursively ((k, e) :: ps)
            (asDict (pyOr res.data (Value.vdict [])))) k) res.error])) ++
          [HObj.hdict [(k, r)], HObj.hdict [(name, heap.length)]],
        aset prior "task" (heap.length + 1)) := by
    simp [get_output_st, _get_output_key, h1, h2]
  refine ⟨_, _, pyOr (dgetN (evaluate_recursively ((k, e) :: ps)
      (asDict (pyOr res.data (Value.vdict [])))) k) res.error,
    hrun, ?_, ?_⟩
  · rw [List.getElem?_append_left (by simpa using hlt)]
    rw [List.getElem?_set_self]
    · simpa using hlt
  · rw [aget?_aset_ne _ "task" k _ (Ne.symm hk)]
    exact h1

/-- Witness for the amended C2 at the counterexample's concrete input. -/
theorem get_output_st_mutates_witness :
    ("result" : String) ≠ "task" ∧
    aget? ([("result", 0)] : List (String × Nat)) "result" = some 0 ∧
    ([HObj.hlist [Value.vstr "a"]] : Heap)[0]? =
      some (HObj.hlist [Value.vstr "a"]) ∧
    ∃ hp out v, get_output_st [HObj.hlist [Value.vstr "a"]] [("result", 0)]
        "t1" (TaskSpec.mk [("result", PExpr.path "out")]
          [("i", PExpr.path "arr")])
        (RawResult.mk (Value.vdict [("out", Value.vstr "b")]) Value.vnone) =
        Except.ok (hp, out) ∧
      hp[0]? = some (HObj.hlist ([Value.vstr "a"] ++ [v])) ∧
      aget? out "result" = some 0 :=
  ⟨by decide, rfl, rfl,
    get_output_st_mutates [HObj.hlist [Value.vstr "a"]] [("result", 0)] "t1"
      "result" (PExpr.path "out") [] [("i", PExpr.path "arr")]
      (RawResult.mk (Value.vdict [("out", Value.vstr "b")]) Value.vnone)
      0 [Value.vstr "a"] (by decide) rfl rfl⟩

/-- Claim C3, counterexample: the with-items collection has length
`L = 1` and the tracked sequence already holds `1` entry, yet a further
(duplicate / redelivered) application of `get_output` grows it to `2`
entries — nothing in `get_output` caps the sequence at `L`. -/
theorem get_output_exceeds_length_counterexample :
    aget? ([("i", Value.vlist [Value.vint 1])] : List (String × Value)) "i" =
      some (Value.vlist [Value.vint 1]) ∧
    trackedSeq? (TaskSpec.mk [("result", PExpr.path "out")]
        [("i", PExpr.path "arr")]) "t1"
      [("result", Value.vlist [Value.vstr "a"]),
       ("task", Value.vdict [("t1", Value.vdict [("result",
         Value.vlist [Value.vstr "a"])])])] = some [Value.vstr "a"] ∧
    (get_output (TaskDb.mk "t1" [("i", Value.vlist [Value.vint 1])]
        [("result", Value.vlist [Value.vstr "a"]),
         ("task", Value.vdict [("t1", Value.vdict [("result",
           Value.vlist [Value.vstr "a"])])])])
      (TaskSpec.mk [("result", PExpr.path "out")] [("i", PExpr.path "arr")])
      (RawResult.mk (Value.vdict [("out", Value.vstr "b")])
        Value.vnone)).map
      (fun out => trackedSeq? (TaskSpec.mk [("result", PExpr.path "out")]
        [("i", PExpr.path "arr")]) "t1" out) =
      Except.ok (some [Value.vstr "a", Value.vstr "b"]) :=
  ⟨rfl, rfl, rfl⟩

/-- Claim C3, amended: every successful application of `get_output` grows
the tracked sequence (primary under the publish key, else the mirror
`task[name]`) by exactly one entry — lengths are monotonically
non-decreasing, but there is no cap at the collection length `L`; a
duplicate application when `L` entries exist yields `L + 1`. -/
theorem get_output_increments_tracked_length :
    (∀ (name : String) (inp prior : List (String × Value)) (k : String)
       (e : PExpr) (ps wi : List (String × PExpr)) (res : RawResult)
       (out : List (String × Value)), k ≠ "task" →
      get_output (TaskDb.mk name inp prior)
          (TaskSpec.mk ((k, e) :: ps) wi) res = Except.ok out →
      (trackedSeq? (TaskSpec.mk ((k, e) :: ps) wi) name out).map
          List.length =
        some (((trackedSeq? (TaskSpec.mk ((k, e) :: ps) wi) name
          prior).getD []).length + 1)) ∧
    (∀ (name : String) (inp prior : List (String × Value))
       (wi : List (String × PExpr)) (res : RawResult)
       (out : List (String × Value)),
      get_output (TaskDb.mk name inp prior) (TaskSpec.mk [] wi) res =
          Except.ok out →
      (trackedSeq? (TaskSpec.mk [] wi) name out).map List.length =
        some (((trackedSeq? (TaskSpec.mk [] wi) name
          prior).getD []).length + 1)) := by
  constructor
  · intro name inp prior k e ps wi res out hk hout
    rcases hg : aget? prior k with _ | pv
    · simp [get_output, _get_output_key, hg] at hout
      subst hout
      simp only [trackedSeq?, _get_output_key]
      rw [aget?_aset_ne _ "task" k _ (Ne.symm hk), aget?_aset_self]
      simp [hg]
    · cases pv with
      | vlist xs =>
        simp [get_output, _get_output_key, hg] at hout
        subst hout
        simp only [trackedSeq?, _get_output_key]
        rw [aget?_aset_ne _ "task" k _ (Ne.symm hk), aget?_aset_self]
        simp [hg]
      | vnone => simp [get_output, _get_output_key, hg] at hout
      | vbool b => simp [get_output, _get_output_key, hg] at hout
      | vint n => simp [get_output, _get_output_key, hg] at hout
      | vstr s => simp [get_output, _get_output_key, hg] at hout
      | vdict kvs => simp [get_output, _get_output_key, hg] at hout
  · intro name inp prior wi res out hout
    rcases hT : aget? prior "task" with _ | tv
    · simp [get_output, _get_output_key, hT] at hout
      subst hout
      simp only [trackedSeq?, _get_output_key]
      simp [mirrorSeq?, aget?_aset_self, aget?, hT]
    · cases tv with
      | vdict tm =>
        rcases hN : aget? tm name with _ | nv
        · simp [get_output, _get_output_key, hT, hN] at hout
        · cases nv with
          | vlist xs =>
            simp [get_output, _get_output_key, hT, hN] at hout
            subst hout
            simp only [trackedSeq?, _get_output_key]
            simp [mirrorSeq?, aget?_aset_self, aget?_aset_self, hT, hN]
          | vnone => simp [get_output, _get_output_key, hT, hN] at hout
          | vbool b => simp [get_output, _get_output_key, hT, hN] at hout
          | vint n => simp [get_output, _get_output_key, hT, hN] at hout
          | vstr s => simp [get_output, _get_output_key, hT, hN] at hout
          | vdict kvs => simp [get_output, _get_output_key, hT, hN] at hout
      | vnone => simp [get_output, _get_output_key, hT] at hout
      | vbool b => simp [get_output, _get_output_key, hT] at hout
      | vint n => simp [get_output, _get_output_key, hT] at hout
      | vstr s => simp [get_output, _get_output_key, hT] at hout
      | vlist ys => simp [get_output, _get_output_key, hT] at hout

/-- Witness for the amended C3 at the counterexample's concrete input
(`L = 1` entries already present, duplicate application → 2 entries). -/
theorem get_output_increments_tracked_length_witness :
    ("result" : String) ≠ "task" ∧
    get_output (TaskDb.mk "t1" [("i", Value.vlist [Value.vint 1])]
        [("result", Value.vlist [Value.vstr "a"]),
         ("task", Value.vdict [("t1", Value.vdict [("result",
           Value.vlist [Value.vstr "a"])])])])
      (TaskSpec.mk [("result", PExpr.path "out")] [("i", PExpr.path "arr")])
      (RawResult.mk (Value.vdict [("out", Value.vstr "b")]) Value.vnone) =
      Except.ok [("result", Value.vlist [Value.vstr "a", Value.vstr "b"]),
        ("task", Value.vdict [("t1", Value.vdict [("result",
          Value.vlist [Value.vstr "a", Value.vstr "b"])])])] ∧
    (trackedSeq? (TaskSpec.mk [("result", PExpr.path "out")]
        [("i", PExpr.path "arr")]) "t1"
      [("result", Value.vlist [Value.vstr "a", Value.vstr "b"]),
       ("task", Value.vdict [("t1", Value.vdict [("result",
         Value.vlist [Value.vstr "a", Value.vstr "b"])])])]).map
        List.length =
      some (((trackedSeq? (TaskSpec.mk [("result", PExpr.path "out")]
        [("i", PExpr.path "arr")]) "t1"
        [("result", Value.vlist [Value.vstr "a"]),
         ("task", Value.vdict [("t1", Value.vdict [("result",
           Value.vlist [Value.vstr "a"])])])]).getD []).length + 1) :=
  ⟨by decide, rfl,
    get_output_increments_tracked_length.1 "t1"
      [("i", Value.vlist [Value.vint 1])]
      [("result", Value.vlist [Value.vstr "a"]),
       ("task", Value.vdict [("t1", Value.vdict [("result",
         Value.vlist [Value.vstr "a"])])])]
      "result" (PExpr.path "out") [] [("i", PExpr.path "arr")]
      (RawResult.mk (Value.vdict [("out", Value.vstr "b")]) Value.vnone)
      [("result", Value.vlist [Value.vstr "a", Value.vstr "b"]),
       ("task", Value.vdict [("t1", Value.vdict [("result",
         Value.vlist [Value.vstr "a", Value.vstr "b"])])])]
      (by decide) rfl⟩

/-!  `calc_loop` characterization lemmas (for claim C4). -/

theorem getD_append_cons {α : Type} (pre : List α) (s : α) (t : List α)
    (d : α) : (pre ++ s :: t).getD pre.length d = s := by
  induction pre with
  | nil => rfl
  | cons a pre ih => simpa using ih

theorem set_append_cons {α : Type} (pre : List α) (s : α) (t : List α)
    (v : α) : (pre ++ s :: t).set pre.length v = pre ++ v :: t := by
  induction pre with
  | nil => rfl
  | cons a pre ih => simp [ih]

/-- Past the end of the accumulator, `calc_loop` appends one singleton
binding per item (the first-variable regime). -/
theorem calc_loop_append (key : String) :
    ∀ (xs : List Value) (pre : List (List (String × Value))),
      calc_loop key xs pre.length pre =
        pre ++ xs.map (fun x => [(key, x)]) := by
  intro xs
  induction xs with
  | nil => intro pre; simp [calc_loop]
  | cons x rest ih =>
    intro pre
    simp only [calc_loop]
    rw [if_pos (le_refl _)]
    have h2 : pre.length + 1 = (pre ++ [[(key, x)]]).length := by simp
    rw [h2, ih]
    simp

/-- Inside the accumulator, `calc_loop` updates the row at each index with
the new binding (the later-variables regime). -/
theorem calc_loop_zip (key : String) :
    ∀ (xs : List Value) (pre suf : List (List (String × Value))),
      suf.length = xs.length →
      calc_loop key xs pre.length (pre ++ suf) =
        pre ++ List.zipWith (fun d x => aset d key x) suf xs := by
  intro xs
  induction xs with
  | nil =>
    intro pre suf h
    have hsuf : suf = [] := List.eq_nil_of_length_eq_zero h
    subst hsuf
    simp [calc_loop]
  | cons x rest ih =>
    intro pre suf h
    cases suf with
    | nil => simp at h
    | cons s stail =>
      simp only [calc_loop]
      rw [if_neg (by simp)]
      rw [getD_append_cons, set_append_cons]
      have h2 : pre.length + 1 = (pre ++ [aset s key x]).length := by simp
      have h3 : pre ++ (aset s key x) :: stail =
          (pre ++ [aset s key x]) ++ stail := by simp
      rw [h3, h2, ih (pre ++ [aset s key x]) stail (by simpa using h)]
      simp

theorem buildRows_getElem (ds : List (String × Value)) (L i : Nat)
    (h : i < (buildRows ds L).length) :
    (buildRows ds L)[i] =
      ds.map (fun kv => (kv.1, (asList kv.2).getD i Value.vnone)) := by
  simp [buildRows]

theorem buildRows_getD (ds : List (String × Value)) (L i : Nat)
    (h : i < L) :
    (buildRows ds L).getD i [] =
      ds.map (fun kv => (kv.1, (asList kv.2).getD i Value.vnone)) := by
  have hlen : i < (buildRows ds L).length := by simpa [buildRows] using h
  rw [List.getD_eq_getElem _ _ hlen]
  exact buildRows_getElem ds L i hlen

/-- One outer-loop step of `calc_input` on an already-built accumulator:
processing a fresh variable `k` with source list `xs` adds the binding
`(k, xs[i])` at the end of every row `i`. -/
theorem calc_step (done : List (String × Value)) (k : String)
    (xs : List Value) (L : Nat) (hL : xs.length = L)
    (hfresh : ∀ kv ∈ done, kv.1 ≠ k) :
    calc_loop k xs 0 (buildRows done L) =
      buildRows (done ++ [(k, Value.vlist xs)]) L := by
  have hsuf : (buildRows done L).length = xs.length := by
    simp [buildRows, hL]
  have hz := calc_loop_zip k xs [] (buildRows done L) hsuf
  simp only [List.nil_append, List.length_nil] at hz
  rw [hz]
  apply List.ext_getElem
  · simp [buildRows, hL]
  · intro i h1 h2
    rw [List.getElem_zipWith]
    have hiL : i < L := by
      simpa [List.length_zipWith, buildRows, hL] using h1
    rw [buildRows_getElem done L i (by simpa [buildRows] using hiL),
      buildRows_getElem _ L i h2]
    have hfresh2 : ∀ p ∈ done.map
        (fun kv => (kv.1, (asList kv.2).getD i Value.vnone)), p.1 ≠ k := by
      intro p hp
      obtain ⟨kv, hkv, rfl⟩ := List.mem_map.mp hp
      exact hfresh kv hkv
    rw [aset_fresh _ _ _ hfresh2]
    simp [asList]
    rw [List.getElem?_eq_getElem (show i < xs.length by omega)]
    rfl

/-- The whole outer loop of `calc_input`, starting from an accumulator
already holding the rows for the processed variables `done`. -/
theorem calc_fold (rest : List (String × Value)) :
    ∀ (done : List (String × Value)) (L : Nat),
      (∀ kv ∈ rest, ∃ xs, kv.2 = Value.vlist xs ∧ xs.length = L) →
      (∀ kv ∈ rest, ∀ kv2 ∈ done, kv2.1 ≠ kv.1) →
      (rest.map Prod.fst).Nodup →
      List.foldl (fun acc kv => calc_loop kv.1 (asList kv.2) 0 acc)
        (buildRows done L) rest = buildRows (done ++ rest) L := by
  induction rest with
  | nil => intro done L _ _ _; simp
  | cons kv rest ih =>
    obtain ⟨k, v⟩ := kv
    intro done L hvals hfresh hnd
    obtain ⟨xs, hv, hL⟩ := hvals (k, v) (by simp)
    have hv2 : v = Value.vlist xs := hv
    subst hv2
    simp only [List.map_cons, List.nodup_cons] at hnd
    simp only [List.foldl_cons]
    rw [show asList (Value.vlist xs) = xs from rfl]
    rw [calc_step done k xs L hL
      (fun kv2 h2 => hfresh (k, Value.vlist xs) (by simp) kv2 h2)]
    rw [ih (done ++ [(k, Value.vlist xs)]) L
      (fun kv2 h2 => hvals kv2 (List.mem_cons_of_mem _ h2))
      ?_ hnd.2]
    · simp
    · intro kv2 h2 kv3 h3
      rcases List.mem_append.mp h3 with hd | hs
      · exact hfresh kv2 (List.mem_cons_of_mem _ h2) kv3 hd
      · have hkv3 : kv3 = (k, Value.vlist xs) := by simpa using hs
        subst hkv3
        intro heq
        have hk2 : k = kv2.1 := heq
        refine hnd.1 ?_
        rw [hk2]
        exact List.mem_map_of_mem Prod.fst h2

/-- `validate_input` accepts a nonempty mapping whose values are lists of
one common length. -/
theorem validate_input_ok (k0 : String) (v0 : Value)
    (rest : List (String × Value)) (L : Nat)
    (hvals : ∀ kv ∈ (k0, v0) :: rest,
      ∃ xs, kv.2 = Value.vlist xs ∧ xs.length = L) :
    validate_input ((k0, v0) :: rest) = Except.ok () := by
  obtain ⟨xs0, hx0, hl0⟩ := hvals (k0, v0) (by simp)
  have hx0v : v0 = Value.vlist xs0 := hx0
  subst hx0v
  have h1 : ((Value.vlist xs0 :: rest.map Prod.snd).all
      (fun v => match v with | Value.vlist _ => true | _ => false)) = true := by
    refine List.all_eq_true.mpr (fun v hv => ?_)
    rcases List.mem_cons.mp hv with rfl | hv2
    · rfl
    · obtain ⟨kv, hkv, rfl⟩ := List.mem_map.mp hv2
      obtain ⟨xs, hxs, -⟩ := hvals kv (List.mem_cons_of_mem _ hkv)
      rw [hxs]
  have h2 : ((Value.vlist xs0 :: rest.map Prod.snd).all
      (fun v => (asList v).length == (asList (Value.vlist xs0)).length)) =
      true := by
    refine List.all_eq_true.mpr (fun v hv => ?_)
    rcases List.mem_cons.mp hv with rfl | hv2
    · simp
    · obtain ⟨kv, hkv, rfl⟩ := List.mem_map.mp hv2
      obtain ⟨xs, hxs, hlxs⟩ := hvals kv (List.mem_cons_of_mem _ hkv)
      rw [hxs]
      simp [asList, hlxs, hl0]
  have heval : validate_input ((k0, Value.vlist xs0) :: rest) =
      (if (!((Value.vlist xs0 :: rest.map Prod.snd).all
            (fun v => match v with | Value.vlist _ => true | _ => false))) = true
       then Except.error (PyErr.inputException
         "Wrong input format. List type is expected for each value.")
       else if ((Value.vlist xs0 :: rest.map Prod.snd).all
            (fun v => (asList v).length ==
              (asList (Value.vlist xs0)).length)) = true
       then Except.ok ()
       else Except.error (PyErr.inputException
         "Wrong input format. All arrays must have the same length.")) := rfl
  rw [heval, h1, h2]
  simp

/-- Claim C4: for a nonempty mapping (with the distinct keys of a real
dict) whose values are lists of common length `L`, `calc_input` returns
exactly `L` iteration bindings, the `i`-th binding mapping every variable
to the `i`-th element of its source list. -/
theorem calc_input_expands (wi : List (String × Value)) (L : Nat)
    (hne : wi ≠ [])
    (hvals : ∀ kv ∈ wi, ∃ xs, kv.2 = Value.vlist xs ∧ xs.length = L)
    (hnd : (wi.map Prod.fst).Nodup) :
    ∃ out, calc_input wi = Except.ok out ∧ out.length = L ∧
      ∀ i, i < L → ∀ k xs, (k, Value.vlist xs) ∈ wi →
        aget? (out.getD i []) k = some (xs.getD i Value.vnone) := by
  obtain ⟨⟨k0, v0⟩, rest, rfl⟩ : ∃ kv rest, wi = kv :: rest := by
    cases wi with
    | nil => exact absurd rfl hne
    | cons kv rest => exact ⟨kv, rest, rfl⟩
  obtain ⟨xs0, hx0, hl0⟩ := hvals (k0, v0) (by simp)
  have hx0v : v0 = Value.vlist xs0 := hx0
  subst hx0v
  simp only [List.map_cons, List.nodup_cons] at hnd
  have hrun : calc_input ((k0, Value.vlist xs0) :: rest) =
      Except.ok (List.foldl (fun acc kv => calc_loop kv.1 (asList kv.2) 0 acc)
        [] ((k0, Value.vlist xs0) :: rest)) := by
    simp [calc_input, validate_input_ok k0 (Value.vlist xs0) rest L hvals]
  have hbase : calc_loop k0 (asList (Value.vlist xs0)) 0 [] =
      buildRows [(k0, Value.vlist xs0)] L := by
    rw [show asList (Value.vlist xs0) = xs0 from rfl]
    rw [show (0 : Nat) = ([] : List (List (String × Value))).length from rfl,
      calc_loop_append]
    apply List.ext_getElem
    · simp [buildRows, hl0]
    · intro i h1 h2
      have hiL : i < xs0.length := by simpa using h1
      simp [buildRows, asList]
      rw [List.getElem?_eq_getElem hiL]
      rfl
  have hfold : List.foldl (fun acc kv => calc_loop kv.1 (asList kv.2) 0 acc)
      [] ((k0, Value.vlist xs0) :: rest) =
      buildRows ((k0, Value.vlist xs0) :: rest) L := by
    simp only [List.foldl_cons]
    rw [hbase]
    rw [calc_fold rest [(k0, Value.vlist xs0)] L
      (fun kv h => hvals kv (List.mem_cons_of_mem _ h)) ?_ hnd.2]
    · rfl
    · intro kv2 h2 kv3 h3
      have hkv3 : kv3 = (k0, Value.vlist xs0) := by simpa using h3
      subst hkv3
      intro heq
      have hk2 : k0 = kv2.1 := heq
      refine hnd.1 ?_
      rw [hk2]
      exact List.mem_map_of_mem Prod.fst h2
  rw [hfold] at hrun
  refine ⟨_, hrun, ?_, ?_⟩
  · simp [buildRows]
  · intro i hi k xs hmem
    rw [buildRows_getD _ _ _ hi]
    have hnd2 : (((k0, Value.vlist xs0) :: rest).map Prod.fst).Nodup := by
      simp only [List.map_cons, List.nodup_cons]
      exact hnd
    have := aget?_row ((k0, Value.vlist xs0) :: rest)
      (fun v => (asList v).getD i Value.vnone) k (Value.vlist xs) hnd2 hmem
    simpa [asList] using this

/-- Witness for C4 at the spec's own example:
`{itemX: [1, 2], itemY: ['a', 'b']}` expands to
`[{itemX: 1, itemY: 'a'}, {itemX: 2, itemY: 'b'}]`. -/
theorem calc_input_expands_witness :
    ([("itemX", Value.vlist [Value.vint 1, Value.vint 2]),
      ("itemY", Value.vlist [Value.vstr "a", Value.vstr "b"])] :
        List (String × Value)) ≠ [] ∧
    (([("itemX", Value.vlist [Value.vint 1, Value.vint 2]),
       ("itemY", Value.vlist [Value.vstr "a", Value.vstr "b"])].map
        Prod.fst).Nodup) ∧
    ∃ out, calc_input
        [("itemX", Value.vlist [Value.vint 1, Value.vint 2]),
         ("itemY", Value.vlist [Value.vstr "a", Value.vstr "b"])] =
        Except.ok out ∧
      out.length = 2 ∧
      ∀ i, i < 2 → ∀ k xs, (k, Value.vlist xs) ∈
        ([("itemX", Value.vlist [Value.vint 1, Value.vint 2]),
          ("itemY", Value.vlist [Value.vstr "a", Value.vstr "b"])] :
            List (String × Value)) →
        aget? (out.getD i []) k = some (xs.getD i Value.vnone) :=
  ⟨by simp, by simp,
    calc_input_expands
      [("itemX", Value.vlist [Value.vint 1, Value.vint 2]),
       ("itemY", Value.vlist [Value.vstr "a", Value.vstr "b"])] 2
      (by simp)
      (by
        intro kv hkv
        rcases List.mem_cons.mp hkv with rfl | hkv2
        · exact ⟨[Value.vint 1, Value.vint 2], rfl, rfl⟩
        · have hkv3 : kv = ("itemY", Value.vlist [Value.vstr "a",
            Value.vstr "b"]) := by simpa using hkv2
          subst hkv3
          exact ⟨[Value.vstr "a", Value.vstr "b"], rfl, rfl⟩)
      (by simp)⟩
